import Mathlib

/-!
Verification of the zerg-rush frontend core against its specification.

Shallow embedding of:
* `frontend/src/types/index.ts` — `AgentStatus`, `Agent`, `Credential`,
  `CreateCredentialRequest`, `AuditLog`, and the `StatusBadge` component;
* `frontend/src/hooks/useStreamingOperation.ts` — the SSE streaming client
  (`executeStream` / `executePost` / `executeDelete`), including its
  chunk-buffered line parser and its React state updates;
* the API client (`services/api.ts`) surface for audit logs;
* the `audit_logs` storage rules declared in
  `.clarity-protocol/solution/architecture.md` (`audit_log_no_update`,
  `audit_log_no_delete`).

JavaScript built-ins that are not part of the repository (JSON.parse, the
TextDecoder) are modelled as parameters: the embedding is parameterized over
the parse function applied to each SSE `data:` line and to a non-ok response
body.  Character streams are modelled after UTF-8 decoding, i.e. as
`List Char`; `TextDecoder.decode(_, stream := true)` guarantees the decoded
concatenation of the byte chunks equals the decoding of their concatenation.
-/

namespace ZergRush

/-- Agent lifecycle status enum, from `frontend/src/types/index.ts`
(`AgentStatus`, lines 27–35). -/
inductive AgentStatus where
  | creating
  | running
  | stopping
  | stopped
  | starting
  | deleting
  | deleted
  | error
deriving DecidableEq, Repr

/-- The list of the defined `AgentStatus` enum values, in source order. -/
def agentStatusValues : List AgentStatus :=
  [.creating, .running, .stopping, .stopped, .starting, .deleting, .deleted, .error]

/-- The `Agent` record, from `frontend/src/types/index.ts` lines 10–25.
TypeScript `x | null` fields become `Option`. -/
structure Agent where
  id : String
  name : String
  vm_id : String
  vm_size : String
  vm_status : AgentStatus
  vm_internal_ip : Option String
  bucket_id : String
  current_task : Option String
  platform_type : String
  platform_version : Option String
  template_id : Option String
  gateway_port : Nat
  created_at : String
  updated_at : String
deriving DecidableEq, Repr

/-- Field names of the `Agent` interface, in declaration order
(`frontend/src/types/index.ts` lines 10–25). -/
def agentFieldNames : List String :=
  ["id", "name", "vm_id", "vm_size", "vm_status", "vm_internal_ip", "bucket_id",
   "current_task", "platform_type", "platform_version", "template_id",
   "gateway_port", "created_at", "updated_at"]

/-- `CredentialType`, from `frontend/src/types/index.ts` line 66. -/
inductive CredentialType where
  | llm
  | cloud
  | utility
deriving DecidableEq, Repr

/-- The `Credential` record returned by the credential list/get API,
from `frontend/src/types/index.ts` lines 58–64. -/
structure Credential where
  id : String
  name : String
  type : CredentialType
  description : Option String
  created_at : String
deriving DecidableEq, Repr

/-- Field names of the `Credential` interface, in declaration order. -/
def credentialFieldNames : List String :=
  ["id", "name", "type", "description", "created_at"]

/-- The `CreateCredentialRequest` payload sent to the server,
from `frontend/src/types/index.ts` lines 68–73. -/
structure CreateCredentialRequest where
  name : String
  type : CredentialType
  description : Option String
  value : String
deriving DecidableEq, Repr

/-- Field names of the `CreateCredentialRequest` interface, in declaration
order.  `value` is the secret plaintext being uploaded. -/
def createCredentialRequestFieldNames : List String :=
  ["name", "type", "description", "value"]

/-- The `AuditLog` record, from `frontend/src/types/index.ts` lines 76–84.
The structured `details: Record<string, unknown>` document is modelled as a
key/value list of strings. -/
structure AuditLogEntry where
  id : String
  action_type : String
  target_type : Option String
  target_id : Option String
  details : Option (List (String × String))
  ip_address : Option String
  timestamp : String
deriving DecidableEq, Repr

/-- Field names of the `AuditLog` interface, in declaration order. -/
def auditLogFieldNames : List String :=
  ["id", "action_type", "target_type", "target_id", "details", "ip_address",
   "timestamp"]

/-! ## StatusBadge (`frontend/src/types/index.ts` lines 228–252) -/

/-- The `{ bg, text, dot }` style record of `statusStyles`. -/
structure BadgeStyle where
  bg : String
  text : String
  dot : String
deriving DecidableEq, Repr

/-- The `statusStyles` record of the `StatusBadge` component, key by key. -/
def statusStyles : List (AgentStatus × BadgeStyle) :=
  [(.running,  ⟨"bg-green-50",  "text-green-700",  "bg-green-500"⟩),
   (.stopped,  ⟨"bg-gray-50",   "text-gray-700",   "bg-gray-500"⟩),
   (.creating, ⟨"bg-blue-50",   "text-blue-700",   "bg-blue-500"⟩),
   (.starting, ⟨"bg-blue-50",   "text-blue-700",   "bg-blue-500"⟩),
   (.stopping, ⟨"bg-yellow-50", "text-yellow-700", "bg-yellow-500"⟩),
   (.deleting, ⟨"bg-red-50",    "text-red-700",    "bg-red-500"⟩),
   (.deleted,  ⟨"bg-gray-50",   "text-gray-500",   "bg-gray-400"⟩),
   (.error,    ⟨"bg-red-50",    "text-red-700",    "bg-red-500"⟩)]

/-- `statusStyles[status] || statusStyles.error` — the lookup performed by
`StatusBadge`, falling back to the `error` style. -/
def statusStyleFor (status : AgentStatus) : BadgeStyle :=
  match statusStyles.lookup status with
  | some st => st
  | none => ⟨"bg-red-50", "text-red-700", "bg-red-500"⟩

/-- The transient statuses given the `animate-pulse` class by `StatusBadge`:
`['creating', 'starting', 'stopping', 'deleting'].includes(status)`. -/
def pulsingStatuses : List AgentStatus :=
  [.creating, .starting, .stopping, .deleting]

/-- Whether `StatusBadge` animates the status dot, i.e. whether the status is
one of the four transient values. -/
def isPulsing (status : AgentStatus) : Bool :=
  pulsingStatuses.contains status

/-! ## Dashboard `AgentCard` and `AgentDetail` action buttons -/

/-- `AgentCard` (Dashboard): the Start button is rendered exactly under
`agent.vm_status === 'stopped'`. -/
def cardShowsStart (a : Agent) : Bool :=
  a.vm_status == AgentStatus.stopped

/-- `AgentCard` (Dashboard): the Stop button is rendered exactly under
`agent.vm_status === 'running'`. -/
def cardShowsStop (a : Agent) : Bool :=
  a.vm_status == AgentStatus.running

/-- `AgentDetail` header: the Start button is rendered exactly under
`agent.vm_status === 'stopped'`. -/
def detailShowsStart (a : Agent) : Bool :=
  a.vm_status == AgentStatus.stopped

/-- `AgentDetail` header: the Stop button is rendered exactly under
`agent.vm_status === 'running'`. -/
def detailShowsStop (a : Agent) : Bool :=
  a.vm_status == AgentStatus.running

/-! ## Audit-log API client surface (`services/api.ts`, `logs`) -/

/-- HTTP methods used by the axios API client. -/
inductive HttpMethod where
  | get
  | post
  | put
  | delete
deriving DecidableEq, Repr

/-- One method of the API client: HTTP verb and path template. -/
structure ApiCall where
  method : HttpMethod
  path : String
deriving DecidableEq, Repr

/-- The complete `logs` client object of `services/api.ts` (lines 117–123):
`list` (`GET /logs`) and `export` (`GET /logs/export`).  These are its only
members. -/
def logsClientCalls : List ApiCall :=
  [⟨.get, "/logs"⟩, ⟨.get, "/logs/export"⟩]

/-! ## `audit_logs` storage rules

From `.clarity-protocol/solution/architecture.md` (lines 298–300):

`CREATE RULE audit_log_no_update AS ON UPDATE TO audit_logs DO INSTEAD NOTHING;`
`CREATE RULE audit_log_no_delete AS ON DELETE TO audit_logs DO INSTEAD NOTHING;`

The table state is the ordered list of its rows; INSERT appends, and the two
rules rewrite every UPDATE and every DELETE into no-ops at the storage layer,
regardless of the caller. -/

/-- A DML statement issued against the `audit_logs` table. -/
inductive AuditTableOp where
  | insert (e : AuditLogEntry)
  | update (targetId : String) (new : AuditLogEntry)
  | delete (targetId : String)

/-- Execution of one statement against the `audit_logs` table under the
`audit_log_no_update` / `audit_log_no_delete` rules: UPDATE and DELETE are
rewritten to `DO INSTEAD NOTHING`. -/
def applyAuditOp (tbl : List AuditLogEntry) : AuditTableOp → List AuditLogEntry
  | .insert e => tbl ++ [e]
  | .update _ _ => tbl
  | .delete _ => tbl

/-- Execution of a statement sequence against the `audit_logs` table. -/
def applyAuditOps (tbl : List AuditLogEntry) (ops : List AuditTableOp) :
    List AuditLogEntry :=
  ops.foldl applyAuditOp tbl

/-- The rows inserted by a statement sequence, in order. -/
def insertedEntries (ops : List AuditTableOp) : List AuditLogEntry :=
  ops.filterMap fun op =>
    match op with
    | .insert e => some e
    | _ => none

/-! ## Credential-create flow (server side, modelled) -/

/-- All strings stored in a `Credential` record. -/
def credentialStrings (c : Credential) : List String :=
  [c.id, c.name] ++ (match c.description with | some d => [d] | none => []) ++
    [c.created_at]

/-- All strings stored in an `AuditLogEntry`, including every key and value of
its structured `details` document. -/
def auditEntryStrings (e : AuditLogEntry) : List String :=
  [e.id, e.action_type] ++
    (match e.target_type with | some t => [t] | none => []) ++
    (match e.target_id with | some t => [t] | none => []) ++
    (match e.details with
     | some kvs => kvs.foldr (fun kv acc => kv.1 :: kv.2 :: acc) []
     | none => []) ++
    (match e.ip_address with | some t => [t] | none => []) ++
    [e.timestamp]

/-- Modelled from the spec: the backend credential-create handler (its source
is not under `src/`; only the client `credentials.create` call and the
`Credential` / `CreateCredentialRequest` types are).  Per §4.3, storing a
secret returns an opaque reference, never the plaintext, "for persistence in
the Credential record", and §3 states "The secret value itself never lives in
this record"; per §4.1/§8 the audit entry records the action type, target and
outcome.  The handler therefore builds the `Credential` row from the request
metadata plus a fresh id and timestamp, and one `credential.create` audit
entry whose details name the credential — the request's `value` field is
passed only to the secret backend and is used in neither record. -/
def createCredentialBackend (req : CreateCredentialRequest)
    (freshId entryId now ip : String) : Credential × AuditLogEntry :=
  (⟨freshId, req.name, req.type, req.description, now⟩,
   ⟨entryId, "credential.create", some "credential", some freshId,
    some [("name", req.name)], some ip, now⟩)

/-- The non-secret strings flowing into the modelled credential-create
handler: the generated identifiers and timestamps, the request metadata, and
the handler's fixed labels. -/
def createCredentialInputStrings (req : CreateCredentialRequest)
    (freshId entryId now ip : String) : List String :=
  [freshId, entryId, now, ip, req.name, "credential.create", "credential", "name"] ++
    (match req.description with | some d => [d] | none => [])

/-- A concrete credential-create request; `"sk-secret"` is the plaintext. -/
def demoReq : CreateCredentialRequest :=
  ⟨"my-key", .llm, none, "sk-secret"⟩

/-- A concrete audit row. -/
def demoEntry0 : AuditLogEntry :=
  ⟨"e0", "agent.create", some "agent", some "agent-1", none, none, "2026-01-01"⟩

/-- A second concrete audit row. -/
def demoEntry1 : AuditLogEntry :=
  ⟨"e1", "agent.delete", some "agent", some "agent-1", none, none, "2026-01-02"⟩

/-! ## Streaming client (`frontend/src/hooks/useStreamingOperation.ts`)

The hook consumes a Server-Sent-Events body.  `JSON.parse` is a JavaScript
built-in, so the embedding is parameterized over the function `pe` applied to
the text of each `data: ` line (returning the parsed `StreamEvent`, or `none`
when `JSON.parse` throws) and over the function applied to a non-ok response
body (returning its `detail` field). -/

/-- `StreamEvent.type`, from `useStreamingOperation.ts` line 8. -/
inductive EventType where
  | log
  | span_start
  | span_end
  | complete
  | error
deriving DecidableEq, Repr

/-- A parsed SSE event, from `useStreamingOperation.ts` lines 7–14.  Of the
optional `data: Record<string, unknown>` document the hook only consults
`event.data?.agent`; `dataAgent` is that field when present and truthy. -/
structure StreamEvent where
  type : EventType
  timestamp : String
  message : String
  depth : Option Nat
  dataAgent : Option Agent
  duration_ms : Option Nat
deriving DecidableEq, Repr

/-- JavaScript `buffer.split('\n')`: the list of newline-separated segments,
one more segment than there are newlines (so never empty). -/
def splitNl : List Char → List (List Char)
  | [] => [[]]
  | c :: cs =>
    if c = '\n' then [] :: splitNl cs
    else
      match splitNl cs with
      | [] => [[c]]
      | l :: ls => (c :: l) :: ls

/-- Proof-side form of the split: `(complete lines, final incomplete segment)`,
computed in one pass.  `splitSeg l = ((splitNl l).dropLast, (splitNl l).getLastD [])`
is proved below. -/
def splitSeg : List Char → List (List Char) × List Char
  | [] => ([], [])
  | c :: cs =>
    let r := splitSeg cs
    if c = '\n' then ([] :: r.1, r.2)
    else
      match r.1 with
      | [] => ([], c :: r.2)
      | g :: gs => ((c :: g) :: gs, r.2)

/-- The `'data: '` prefix recognized at line 131. -/
def dataPrefix : List Char := "data: ".toList

/-- The event parsed from one complete line: lines 131–133,
`line.startsWith('data: ')` then `JSON.parse(line.slice(6))`; other lines and
lines whose parse throws produce no event. -/
def lineEvent (pe : List Char → Option StreamEvent) (line : List Char) :
    Option StreamEvent :=
  if dataPrefix.isPrefixOf line then pe (line.drop 6) else none

/-- The mutable state of one run of the `executeStream` read loop: the React
`events`, `error` and `result` state plus the local `finalResult` variable. -/
structure LoopState where
  events : List StreamEvent
  error : Option String
  result : Option Agent
  finalResult : Option Agent
deriving DecidableEq, Repr

/-- Dispatch of one parsed event, lines 135–148: an `error` event sets the
error state (and is not appended to `events`); a `complete` event stores
`event.data?.agent` (when present) into `finalResult`/`result` and is appended;
every other event is appended. -/
def handleEvent (s : LoopState) (ev : StreamEvent) : LoopState :=
  match ev.type with
  | .error => { s with error := some ev.message }
  | .complete =>
    let s1 :=
      match ev.dataAgent with
      | some a => { s with finalResult := some a, result := some a }
      | none => s
    { s1 with events := s1.events ++ [ev] }
  | _ => { s with events := s.events ++ [ev] }

/-- Processing of one line of the SSE stream, lines 130–153. -/
def handleLine (pe : List Char → Option StreamEvent) (s : LoopState)
    (line : List Char) : LoopState :=
  if dataPrefix.isPrefixOf line then
    match pe (line.drop 6) with
    | some ev => handleEvent s ev
    | none => s
  else s

/-- The `while (true)` read loop, lines 117–154: each decoded chunk is added
to the buffer, the buffer is split on newline, the final (possibly incomplete)
segment is kept as the new buffer (`buffer = lines.pop() || ''`), and each
complete line is processed in order. -/
def readLoop (pe : List Char → Option StreamEvent) :
    LoopState → List Char → List (List Char) → LoopState × List Char
  | s, buf, [] => (s, buf)
  | s, buf, chunk :: rest =>
    let lines := splitNl (buf ++ chunk)
    readLoop pe (lines.dropLast.foldl (handleLine pe) s) (lines.getLastD []) rest

/-- The complete lines the read loop processes, in processing order, as a
function of the chunking. -/
def processedLines : List Char → List (List Char) → List (List Char)
  | _, [] => []
  | buf, chunk :: rest =>
    let lines := splitNl (buf ++ chunk)
    lines.dropLast ++ processedLines (lines.getLastD []) rest

/-- The sequence of events the loop parses from a chunked stream (a fresh
execution starts with an empty buffer). -/
def chunkParsedEvents (pe : List Char → Option StreamEvent)
    (chunks : List (List Char)) : List StreamEvent :=
  (processedLines [] chunks).filterMap (lineEvent pe)

/-- Result of `JSON.parse` on a non-ok response body: failure, or success with
the (optional) `detail` field. -/
inductive JsonDetail where
  | parseFail
  | parsed (detail : Option String)
deriving DecidableEq, Repr

/-- The default error message built at line 98. -/
def requestFailedMsg (status : Nat) : String :=
  "Request failed: " ++ toString status

/-- Lines 97–104: `errorMessage = errorJson.detail || errorMessage` — the
`detail` field wins only when `JSON.parse` succeeds and `detail` is truthy
(in particular not the empty string). -/
def errorMessageFor (status : Nat) : JsonDetail → String
  | .parseFail => requestFailedMsg status
  | .parsed none => requestFailedMsg status
  | .parsed (some d) => if d = "" then requestFailedMsg status else d

/-- Outcome of the `fetch` call and subsequent reads, as seen by
`executeStream`:
* `thrown name message` — `fetch` itself rejected (e.g. an `AbortError`);
* `resp ok status errorBody hasBody chunks thrownAfter` — a response arrived:
  `ok`/`status` from the response, `errorBody` its text when not ok, `hasBody`
  whether `response.body` is non-null, `chunks` the decoded chunks delivered
  before the stream ended, and `thrownAfter` a rejection of `reader.read()`
  after those chunks (e.g. an abort mid-stream), if any. -/
inductive FetchResult where
  | thrown (name message : String)
  | resp (ok : Bool) (status : Nat) (errorBody : String) (hasBody : Bool)
      (chunks : List (List Char)) (thrownAfter : Option (String × String))

/-- The hook's React state after a call: `events`, `isLoading`, `error`,
`result` (lines 55–58). -/
structure HookState where
  events : List StreamEvent
  isLoading : Bool
  error : Option String
  result : Option Agent
deriving DecidableEq, Repr

/-- Everything observable from one `executeStream` call: the final hook state,
the returned value, and whether a previous request's controller was aborted at
entry (lines 70–73). -/
structure ExecResult where
  st : HookState
  ret : Option Agent
  abortedPrev : Bool
deriving DecidableEq, Repr

/-- `executeStream` (lines 68–171).  `parseJson` stands for `JSON.parse` on a
non-ok response body, `pe` for `JSON.parse` on SSE lines, `prevInFlight` for
`abortControllerRef.current !== null` at entry.  The call first aborts any
existing operation and resets `events`/`error`/`result`, sets `isLoading`;
the `finally` block always clears `isLoading`.  A thrown `AbortError` returns
`null` leaving the error state alone; any other exception message is stored in
the error state; a non-ok response and a missing body throw `Error`s that are
caught the same way. -/
def executeStream (parseJson : String → JsonDetail)
    (pe : List Char → Option StreamEvent) (prevInFlight : Bool)
    (_method : HttpMethod) (fr : FetchResult) : ExecResult :=
  let aborted := prevInFlight
  match fr with
  | .thrown nm msg =>
    if nm = "AbortError" then
      { st := { events := [], isLoading := false, error := none, result := none },
        ret := none, abortedPrev := aborted }
    else
      { st := { events := [], isLoading := false, error := some msg, result := none },
        ret := none, abortedPrev := aborted }
  | .resp ok status errorBody hasBody chunks thrownAfter =>
    if ok = false then
      { st := { events := [], isLoading := false,
                error := some (errorMessageFor status (parseJson errorBody)),
                result := none },
        ret := none, abortedPrev := aborted }
    else if hasBody = false then
      { st := { events := [], isLoading := false,
                error := some "No response body", result := none },
        ret := none, abortedPrev := aborted }
    else
      let ls := (readLoop pe ⟨[], none, none, none⟩ [] chunks).1
      match thrownAfter with
      | some (nm, msg) =>
        if nm = "AbortError" then
          { st := { events := ls.events, isLoading := false, error := ls.error,
                    result := ls.result },
            ret := none, abortedPrev := aborted }
        else
          { st := { events := ls.events, isLoading := false, error := some msg,
                    result := ls.result },
            ret := none, abortedPrev := aborted }
      | none =>
        { st := { events := ls.events, isLoading := false, error := ls.error,
                  result := ls.result },
          ret := ls.finalResult, abortedPrev := aborted }

/-- `executePost` (lines 173–176): `executeStream(url, 'POST', body)`. -/
def executePost (parseJson : String → JsonDetail)
    (pe : List Char → Option StreamEvent) (prevInFlight : Bool)
    (fr : FetchResult) : ExecResult :=
  executeStream parseJson pe prevInFlight .post fr

/-- `executeDelete` (lines 178–185): awaits `executeStream(url, 'DELETE')` and
then returns `error === null && !isLoading`.  `error` and `isLoading` here are
the React state values captured by the `useCallback` closure when the callback
was created (its dependency array is `[executeStream, error, isLoading]`), not
the state produced by the stream just awaited: React state setters do not
mutate the bindings already captured. -/
def executeDelete (capturedError : Option String) (capturedIsLoading : Bool)
    (parseJson : String → JsonDetail) (pe : List Char → Option StreamEvent)
    (prevInFlight : Bool) (fr : FetchResult) : ExecResult × Bool :=
  let r := executeStream parseJson pe prevInFlight .delete fr
  (r, capturedError.isNone && !capturedIsLoading)

/-! ## Helper observations on event sequences -/

/-- Whether an event is terminal (`complete` or `error`). -/
def isTerminal (e : StreamEvent) : Bool :=
  e.type == .complete || e.type == .error

/-- The message carried by an `error` event. -/
def errMsgOf (e : StreamEvent) : Option String :=
  if e.type == .error then some e.message else none

/-- The agent snapshot carried by a `complete` event's `data.agent`. -/
def agentOf (e : StreamEvent) : Option Agent :=
  if e.type == .complete then e.dataAgent else none

/-- Last-writer-wins combination: `upd o base` is `o` when set, else `base`. -/
def upd {α : Type} (o base : Option α) : Option α :=
  match o with
  | some a => some a
  | none => base

/-! ## Concrete demonstration inputs

Used by witnesses and counterexamples.  The demo parse functions agree with
`JSON.parse` on the inputs they are applied to. -/

/-- A concrete agent snapshot. -/
def demoAgent : Agent :=
  { id := "agent-1", name := "Demo", vm_id := "vm-1", vm_size := "small",
    vm_status := .running, vm_internal_ip := none, bucket_id := "bucket-1",
    current_task := none, platform_type := "openclaw", platform_version := none,
    template_id := none, gateway_port := 8080, created_at := "2026-01-01",
    updated_at := "2026-01-02" }

/-- JSON text of a `log` event. -/
def logJson : String :=
  "\x7b\"type\":\"log\",\"timestamp\":\"t1\",\"message\":\"step\"\x7d"

/-- JSON text of an `error` event. -/
def errJson : String :=
  "\x7b\"type\":\"error\",\"timestamp\":\"t2\",\"message\":\"boom\"\x7d"

/-- JSON text of a `complete` event carrying an agent snapshot. -/
def completeJson : String :=
  "\x7b\"type\":\"complete\",\"timestamp\":\"t3\",\"message\":\"done\",\"data\":\x7b\"agent\":\x7b\"id\":\"agent-1\"\x7d\x7d\x7d"

/-- The `log` demo event. -/
def logEvent : StreamEvent :=
  { type := .log, timestamp := "t1", message := "step", depth := none,
    dataAgent := none, duration_ms := none }

/-- The `error` demo event. -/
def errEvent : StreamEvent :=
  { type := .error, timestamp := "t2", message := "boom", depth := none,
    dataAgent := none, duration_ms := none }

/-- The `complete` demo event, carrying `demoAgent` in `data.agent`. -/
def completeEvent : StreamEvent :=
  { type := .complete, timestamp := "t3", message := "done", depth := none,
    dataAgent := some demoAgent, duration_ms := none }

/-- Stand-in for `JSON.parse` on SSE lines, agreeing with it on the three
demo lines (and rejecting everything else). -/
def demoParse (l : List Char) : Option StreamEvent :=
  if l = logJson.toList then some logEvent
  else if l = errJson.toList then some errEvent
  else if l = completeJson.toList then some completeEvent
  else none

/-- One full SSE frame for a JSON payload. -/
def sseLine (json : String) : List Char :=
  ("data: " ++ json ++ "\n").toList

/-- A non-ok response body that parses as JSON and carries an empty-string
`detail` field. -/
def emptyDetailBody : String := "\x7b\"detail\":\"\"\x7d"

/-- Stand-in for `JSON.parse` on non-ok response bodies, agreeing with it on
`emptyDetailBody` (and failing elsewhere). -/
def demoParseJson (s : String) : JsonDetail :=
  if s = emptyDetailBody then .parsed (some "") else .parseFail

/-- How the complete lines of `a ++ b` arise from those of `a` and `b`: the
segment of `a` after its last newline is glued onto `b`'s first complete line
(if `b` has none, no extra complete line arises). -/
def glueGroups (a1 : List (List Char)) (a2 : List Char)
    (b1 : List (List Char)) : List (List Char) :=
  match b1 with
  | [] => a1
  | g :: gs => a1 ++ (a2 ++ g) :: gs

/-- The retained segment of `a ++ b`: `b`'s segment, prefixed by `a`'s when
`b` contains no newline. -/
def glueSeg (a2 : List Char) (b1 : List (List Char)) (b2 : List Char) :
    List Char :=
  match b1 with
  | [] => a2 ++ b2
  | _ :: _ => b2

/-! ## General list lemmas -/

/-- Filtering by `q` factors through filtering by any weaker predicate `p`. -/
theorem filter_sub {α : Type} (p q : α → Bool) (hpq : ∀ e, q e = true → p e = true)
    (l : List α) : l.filter q = (l.filter p).filter q := by
  induction l with
  | nil => rfl
  | cons a l ih =>
    by_cases hq : q a = true
    · have hp := hpq a hq
      simp [List.filter_cons, hq, hp, ih]
    · by_cases hp : p a = true <;>
        simp [List.filter_cons, hq, hp, ih]

/-- `filterMap` by `f` factors through filtering by any predicate that holds
whenever `f` produces a value. -/
theorem filterMap_through_filter {α β : Type} (p : α → Bool) (f : α → Option β)
    (h : ∀ e, p e = false → f e = none) (l : List α) :
    l.filterMap f = (l.filter p).filterMap f := by
  induction l with
  | nil => rfl
  | cons a l ih =>
    by_cases hp : p a = true
    · simp [List.filter_cons, List.filterMap_cons, hp, ih]
    · have hfa : f a = none := h a (by simpa using hp)
      simp [List.filter_cons, List.filterMap_cons, hp, hfa, ih]

/-- Last-writer-wins over a cons. -/
theorem upd_getLast?_cons {α : Type} (a : α) (l : List α) (base : Option α) :
    upd ((a :: l).getLast?) base = upd l.getLast? (some a) := by
  cases h : l.getLast? <;> simp [upd, List.getLast?_cons, h]

/-! ## Split lemmas -/

/-- `splitNl` never returns the empty list. -/
theorem splitNl_ne_nil (l : List Char) : splitNl l ≠ [] := by
  cases l with
  | nil => simp [splitNl]
  | cons c cs =>
    by_cases h : c = '\n'
    · simp [splitNl, h]
    · simp only [splitNl, if_neg h]
      cases splitNl cs <;> simp

/-- `splitSeg` is the (complete lines, retained segment) view of `splitNl`. -/
theorem splitSeg_eq (l : List Char) :
    splitSeg l = ((splitNl l).dropLast, (splitNl l).getLastD []) := by
  induction l with
  | nil => rfl
  | cons c cs ih =>
    by_cases h : c = '\n'
    · rcases hcs : splitNl cs with _ | ⟨g, gs⟩
      · exact absurd hcs (splitNl_ne_nil cs)
      · simp [splitSeg, splitNl, h, ih, hcs, List.getLastD_cons]
    · rcases hcs : splitNl cs with _ | ⟨g, gs⟩
      · exact absurd hcs (splitNl_ne_nil cs)
      · cases gs with
        | nil => simp [splitSeg, splitNl, h, ih, hcs]
        | cons g2 gs2 =>
          simp [splitSeg, splitNl, h, ih, hcs, List.getLastD_cons]

/-- The retained segment of a split contains no newline. -/
theorem splitSeg_no_newline (l : List Char) : '\n' ∉ (splitSeg l).2 := by
  induction l with
  | nil => simp [splitSeg]
  | cons c cs ih =>
    by_cases h : c = '\n'
    · simpa [splitSeg, h] using ih
    · rcases hr : (splitSeg cs).1 with _ | ⟨g, gs⟩
      · simp only [splitSeg, if_neg h, hr]
        intro hmem
        rcases List.mem_cons.mp hmem with h1 | h2
        · exact h h1.symm
        · exact ih h2
      · simpa [splitSeg, h, hr] using ih

/-- Splitting a newline-free list yields no complete line and keeps the list. -/
theorem splitSeg_of_no_newline (l : List Char) (h : '\n' ∉ l) :
    splitSeg l = ([], l) := by
  induction l with
  | nil => rfl
  | cons c cs ih =>
    have hc : ¬ c = '\n' := fun hc => h (hc ▸ List.mem_cons_self c cs)
    have hcs : '\n' ∉ cs := fun hm => h (List.mem_cons_of_mem c hm)
    simp [splitSeg, hc, ih hcs]

/-- How `splitSeg` distributes over append: the first part's retained segment
is glued onto the second part's first complete line (or onto its retained
segment when the second part has no newline). -/
theorem splitSeg_append (a b : List Char) :
    (splitSeg (a ++ b)).1 = glueGroups (splitSeg a).1 (splitSeg a).2 (splitSeg b).1 ∧
    (splitSeg (a ++ b)).2 = glueSeg (splitSeg a).2 (splitSeg b).1 (splitSeg b).2 := by
  induction a with
  | nil =>
    rcases hb : (splitSeg b).1 with _ | ⟨g, gs⟩ <;>
      simp [splitSeg, glueGroups, glueSeg, hb]
  | cons c cs ih =>
    by_cases h : c = '\n'
    · rcases hb : (splitSeg b).1 with _ | ⟨g, gs⟩ <;>
        simp_all [splitSeg, glueGroups, glueSeg, h]
    · rcases hcs : (splitSeg cs).1 with _ | ⟨g0, gs0⟩ <;>
        rcases hb : (splitSeg b).1 with _ | ⟨g, gs⟩ <;>
          simp_all [splitSeg, glueGroups, glueSeg, h]

/-! ## Read-loop characterization -/

/-- The complete lines the loop processes depend only on the concatenation of
the chunks: they are the full split of the concatenated stream minus its final
(possibly incomplete) segment. -/
theorem processedLines_eq (chunks : List (List Char)) :
    ∀ buf : List Char, '\n' ∉ buf →
      processedLines buf chunks = (splitSeg (buf ++ chunks.flatten)).1 := by
  induction chunks with
  | nil =>
    intro buf hbuf
    simp [processedLines, splitSeg_of_no_newline buf hbuf]
  | cons chunk rest ih =>
    intro buf _
    have hseg := splitSeg_eq (buf ++ chunk)
    have h1 : (splitNl (buf ++ chunk)).dropLast = (splitSeg (buf ++ chunk)).1 := by
      rw [hseg]
    have h2 : (splitNl (buf ++ chunk)).getLastD [] = (splitSeg (buf ++ chunk)).2 := by
      rw [hseg]
    have hnl : '\n' ∉ (splitSeg (buf ++ chunk)).2 := splitSeg_no_newline _
    have hrec := ih (splitSeg (buf ++ chunk)).2 hnl
    have happ := (splitSeg_append (buf ++ chunk) rest.flatten).1
    have hmerge := (splitSeg_append (splitSeg (buf ++ chunk)).2 rest.flatten).1
    rw [splitSeg_of_no_newline _ hnl] at hmerge
    simp only [processedLines]
    rw [h1, h2, hrec, hmerge, List.flatten_cons, ← List.append_assoc, happ]
    rcases hb : (splitSeg rest.flatten).1 with _ | ⟨g, gs⟩ <;>
      simp [glueGroups]

/-- The loop state produced by `readLoop` is the fold of the line handler over
the processed lines. -/
theorem readLoop_fst (pe : List Char → Option StreamEvent)
    (chunks : List (List Char)) :
    ∀ (s : LoopState) (buf : List Char),
      (readLoop pe s buf chunks).1 = (processedLines buf chunks).foldl (handleLine pe) s := by
  induction chunks with
  | nil => intro s buf; rfl
  | cons chunk rest ih =>
    intro s buf
    simp only [readLoop, processedLines, List.foldl_append]
    exact ih _ _

/-- `handleLine` is dispatch on the line's parsed event. -/
theorem handleLine_lineEvent (pe : List Char → Option StreamEvent)
    (s : LoopState) (line : List Char) :
    handleLine pe s line =
      (match lineEvent pe line with
       | some ev => handleEvent s ev
       | none => s) := by
  by_cases h : dataPrefix.isPrefixOf line <;>
    simp [handleLine, lineEvent, h]

/-- Folding the line handler over lines equals folding the event handler over
the events parsed from those lines. -/
theorem foldl_handleLine_eq (pe : List Char → Option StreamEvent)
    (lines : List (List Char)) :
    ∀ s : LoopState,
      lines.foldl (handleLine pe) s = (lines.filterMap (lineEvent pe)).foldl handleEvent s := by
  induction lines with
  | nil => intro s; rfl
  | cons l ls ih =>
    intro s
    rcases h : lineEvent pe l with _ | ev <;>
      simp [List.foldl_cons, List.filterMap_cons, h, handleLine_lineEvent, ih]

/-- Field-level description of one event dispatch. -/
theorem handleEvent_fields (s : LoopState) (e : StreamEvent) :
    (handleEvent s e).events = s.events ++ (if e.type == EventType.error then [] else [e]) ∧
    (handleEvent s e).error = upd (errMsgOf e) s.error ∧
    (handleEvent s e).result = upd (agentOf e) s.result ∧
    (handleEvent s e).finalResult = upd (agentOf e) s.finalResult := by
  cases he : e.type
  case complete =>
    rcases ha : e.dataAgent with _ | a <;>
      simp [handleEvent, errMsgOf, agentOf, upd, he, ha]
  all_goals simp [handleEvent, errMsgOf, agentOf, upd, he]

/-- Fold of the event handler: `events` accumulates exactly the non-`error`
events in order; `error` holds the last error event's message; `result` and
`finalResult` hold the last agent snapshot carried by a `complete` event. -/
theorem foldEvents_spec (evs : List StreamEvent) :
    ∀ s : LoopState,
      (evs.foldl handleEvent s).events
          = s.events ++ evs.filter (fun e => !(e.type == EventType.error)) ∧
      (evs.foldl handleEvent s).error
          = upd (evs.filterMap errMsgOf).getLast? s.error ∧
      (evs.foldl handleEvent s).result
          = upd (evs.filterMap agentOf).getLast? s.result ∧
      (evs.foldl handleEvent s).finalResult
          = upd (evs.filterMap agentOf).getLast? s.finalResult := by
  induction evs with
  | nil => intro s; simp [upd]
  | cons e evs ih =>
    intro s
    have hf := handleEvent_fields s e
    refine ⟨?_, ?_, ?_, ?_⟩
    · rw [List.foldl_cons, (ih (handleEvent s e)).1, hf.1]
      by_cases he : e.type == EventType.error <;>
        simp [List.filter_cons, he]
    · rw [List.foldl_cons, (ih (handleEvent s e)).2.1, hf.2.1]
      rcases he : errMsgOf e with _ | m
      · have hfm : List.filterMap errMsgOf (e :: evs) = List.filterMap errMsgOf evs := by
          simp [List.filterMap_cons, he]
        rw [hfm]
        rfl
      · have hfm : List.filterMap errMsgOf (e :: evs)
            = m :: List.filterMap errMsgOf evs := by
          simp [List.filterMap_cons, he]
        rw [hfm, upd_getLast?_cons]
        rfl
    · rw [List.foldl_cons, (ih (handleEvent s e)).2.2.1, hf.2.2.1]
      rcases he : agentOf e with _ | a
      · have hfm : List.filterMap agentOf (e :: evs) = List.filterMap agentOf evs := by
          simp [List.filterMap_cons, he]
        rw [hfm]
        rfl
      · have hfm : List.filterMap agentOf (e :: evs)
            = a :: List.filterMap agentOf evs := by
          simp [List.filterMap_cons, he]
        rw [hfm, upd_getLast?_cons]
        rfl
    · rw [List.foldl_cons, (ih (handleEvent s e)).2.2.2, hf.2.2.2]
      rcases he : agentOf e with _ | a
      · have hfm : List.filterMap agentOf (e :: evs) = List.filterMap agentOf evs := by
          simp [List.filterMap_cons, he]
        rw [hfm]
        rfl
      · have hfm : List.filterMap agentOf (e :: evs)
            = a :: List.filterMap agentOf evs := by
          simp [List.filterMap_cons, he]
        rw [hfm, upd_getLast?_cons]
        rfl

/-- Full description of `executeStream` on an ok response whose stream ends
normally. -/
theorem executeStream_ok_spec (pj : String → JsonDetail)
    (pe : List Char → Option StreamEvent) (prev : Bool) (method : HttpMethod)
    (status : Nat) (eb : String) (chunks : List (List Char)) :
    (executeStream pj pe prev method (.resp true status eb true chunks none)).st.events
        = (chunkParsedEvents pe chunks).filter (fun e => !(e.type == EventType.error)) ∧
    (executeStream pj pe prev method (.resp true status eb true chunks none)).st.error
        = upd ((chunkParsedEvents pe chunks).filterMap errMsgOf).getLast? none ∧
    (executeStream pj pe prev method (.resp true status eb true chunks none)).st.result
        = upd ((chunkParsedEvents pe chunks).filterMap agentOf).getLast? none ∧
    (executeStream pj pe prev method (.resp true status eb true chunks none)).ret
        = upd ((chunkParsedEvents pe chunks).filterMap agentOf).getLast? none ∧
    (executeStream pj pe prev method (.resp true status eb true chunks none)).st.isLoading
        = false := by
  have hloop :
      (readLoop pe ⟨[], none, none, none⟩ [] chunks).1
        = (chunkParsedEvents pe chunks).foldl handleEvent ⟨[], none, none, none⟩ := by
    rw [readLoop_fst, foldl_handleLine_eq]
    rfl
  have hspec := foldEvents_spec (chunkParsedEvents pe chunks) ⟨[], none, none, none⟩
  refine ⟨?_, ?_, ?_, ?_, rfl⟩
  · show ((readLoop pe ⟨[], none, none, none⟩ [] chunks).1).events = _
    rw [hloop, hspec.1]
    rfl
  · show ((readLoop pe ⟨[], none, none, none⟩ [] chunks).1).error = _
    rw [hloop, hspec.2.1]
  · show ((readLoop pe ⟨[], none, none, none⟩ [] chunks).1).result = _
    rw [hloop, hspec.2.2.1]
  · show ((readLoop pe ⟨[], none, none, none⟩ [] chunks).1).finalResult = _
    rw [hloop, hspec.2.2.2]

/-- Description of `executeStream` on an ok response whose stream is
interrupted by an abort after `chunks` were delivered. -/
theorem executeStream_abort_mid_spec (pj : String → JsonDetail)
    (pe : List Char → Option StreamEvent) (prev : Bool) (method : HttpMethod)
    (status : Nat) (eb msg : String) (chunks : List (List Char)) :
    (executeStream pj pe prev method
        (.resp true status eb true chunks (some ("AbortError", msg)))).ret = none ∧
    (executeStream pj pe prev method
        (.resp true status eb true chunks (some ("AbortError", msg)))).st.error
      = upd ((chunkParsedEvents pe chunks).filterMap errMsgOf).getLast? none ∧
    (executeStream pj pe prev method
        (.resp true status eb true chunks (some ("AbortError", msg)))).st.isLoading
      = false := by
  have hloop :
      (readLoop pe ⟨[], none, none, none⟩ [] chunks).1
        = (chunkParsedEvents pe chunks).foldl handleEvent ⟨[], none, none, none⟩ := by
    rw [readLoop_fst, foldl_handleLine_eq]
    rfl
  have hspec := foldEvents_spec (chunkParsedEvents pe chunks) ⟨[], none, none, none⟩
  refine ⟨rfl, ?_, rfl⟩
  show ((readLoop pe ⟨[], none, none, none⟩ [] chunks).1).error = _
  rw [hloop, hspec.2.1]

/-! ## Claim theorems -/

/-- C5: the agent lifecycle status is always one of exactly the eight defined
enum values (creating, running, stopping, stopped, starting, deleting,
deleted, error); the StatusBadge style map is total over this set (its
fallback is never reached), and the transient, pulse-animated values are
exactly creating, starting, stopping and deleting. -/
theorem C5_status_enum_total :
    agentStatusValues.Nodup ∧ agentStatusValues.length = 8 ∧
    ∀ s : AgentStatus,
      s ∈ agentStatusValues ∧
      (statusStyles.lookup s).isSome = true ∧
      (isPulsing s = true ↔
        (s = .creating ∨ s = .starting ∨ s = .stopping ∨ s = .deleting)) := by
  refine ⟨by decide, by decide, ?_⟩
  intro s
  cases s <;> exact ⟨by decide, by decide, by decide⟩

/-- C4: in both the dashboard AgentCard and the AgentDetail header, the start
action is offered exactly when the agent's vm_status is 'stopped' and the stop
action exactly when it is 'running'; in every other status neither action can
be invoked from the UI. -/
theorem C4_start_stop_preconditions :
    ∀ a : Agent,
      (cardShowsStart a = true ↔ a.vm_status = .stopped) ∧
      (cardShowsStop a = true ↔ a.vm_status = .running) ∧
      (detailShowsStart a = true ↔ a.vm_status = .stopped) ∧
      (detailShowsStop a = true ↔ a.vm_status = .running) ∧
      ((cardShowsStart a || cardShowsStop a || detailShowsStart a ||
          detailShowsStop a) = true ↔
        (a.vm_status = .stopped ∨ a.vm_status = .running)) := by
  intro a
  rcases a with ⟨_, _, _, _, s, _, _, _, _, _, _, _, _, _⟩
  cases s <;>
    simp [cardShowsStart, cardShowsStop, detailShowsStart, detailShowsStop]

/-- C3: the audit-log API client exposes only read (GET) operations — `list`
and `export` — and the `audit_logs` storage rules turn every UPDATE and every
DELETE into a no-op, so after any sequence of statements the table consists of
the original rows, unchanged and in order, followed by exactly the inserted
rows: no existing entry is ever updated or deleted. -/
theorem C3_audit_log_append_only :
    (∀ c ∈ logsClientCalls, c.method = HttpMethod.get) ∧
    ∀ (tbl : List AuditLogEntry) (ops : List AuditTableOp),
      applyAuditOps tbl ops = tbl ++ insertedEntries ops := by
  refine ⟨by decide, ?_⟩
  intro tbl ops
  induction ops generalizing tbl with
  | nil => simp [applyAuditOps, insertedEntries]
  | cons op rest ih =>
    cases op with
    | insert e =>
      calc applyAuditOps tbl (AuditTableOp.insert e :: rest)
          = applyAuditOps (tbl ++ [e]) rest := rfl
        _ = (tbl ++ [e]) ++ insertedEntries rest := ih _
        _ = tbl ++ insertedEntries (AuditTableOp.insert e :: rest) := by
            simp [insertedEntries, List.filterMap_cons]
    | update tid new =>
      calc applyAuditOps tbl (AuditTableOp.update tid new :: rest)
          = applyAuditOps tbl rest := rfl
        _ = tbl ++ insertedEntries rest := ih _
        _ = tbl ++ insertedEntries (AuditTableOp.update tid new :: rest) := by
            simp [insertedEntries, List.filterMap_cons]
    | delete tid =>
      calc applyAuditOps tbl (AuditTableOp.delete tid :: rest)
          = applyAuditOps tbl rest := rfl
        _ = tbl ++ insertedEntries rest := ih _
        _ = tbl ++ insertedEntries (AuditTableOp.delete tid :: rest) := by
            simp [insertedEntries, List.filterMap_cons]

/-- Witness for C3 at concrete inputs: the `export` client call is a GET, and
a table holding one row, hit by an UPDATE, a DELETE and an INSERT, ends as the
original row followed by the inserted row. -/
theorem C3_audit_log_append_only_witness :
    (⟨HttpMethod.get, "/logs/export"⟩ : ApiCall) ∈ logsClientCalls ∧
    (⟨HttpMethod.get, "/logs/export"⟩ : ApiCall).method = HttpMethod.get ∧
    applyAuditOps [demoEntry0]
        [.update "e0" demoEntry1, .delete "e0", .insert demoEntry1]
      = [demoEntry0] ++ [demoEntry1] := by
  refine ⟨by decide, C3_audit_log_append_only.1 _ (by decide), ?_⟩
  rw [C3_audit_log_append_only.2]
  rfl

/-- C7: the `Credential` record delivered by the list/get API has no
secret-value field — the plaintext `value` field exists only on
`CreateCredentialRequest` — and neither the audit-entry nor the
progress-event payload types have one; moreover the modelled credential-create
handler stores the plaintext in neither the Credential row it returns nor the
audit entry it writes: any plaintext distinct from the request metadata and
the generated identifiers occurs in neither record. -/
theorem C7_no_plaintext_delivered :
    ("value" ∉ credentialFieldNames) ∧
    ("value" ∈ createCredentialRequestFieldNames) ∧
    ("value" ∉ auditLogFieldNames) ∧
    ("value" ∉ agentFieldNames) ∧
    ∀ (req : CreateCredentialRequest) (freshId entryId now ip : String),
      req.value ∉ createCredentialInputStrings req freshId entryId now ip →
      req.value ∉ credentialStrings
          (createCredentialBackend req freshId entryId now ip).1 ∧
      req.value ∉ auditEntryStrings
          (createCredentialBackend req freshId entryId now ip).2 := by
  refine ⟨by decide, by decide, by decide, by decide, ?_⟩
  intro req freshId entryId now ip h
  rcases req with ⟨name, ty, desc, v⟩
  rcases desc with _ | d <;>
    simp_all [createCredentialInputStrings, createCredentialBackend,
      credentialStrings, auditEntryStrings]

/-- Witness for C7 at a concrete request: the plaintext `"sk-secret"` is
distinct from all metadata and appears in neither the returned Credential row
nor the audit entry. -/
theorem C7_no_plaintext_delivered_witness :
    demoReq.value ∉ createCredentialInputStrings demoReq "cred-1" "e9" "2026-01-03" "10.0.0.1" ∧
    demoReq.value ∉ credentialStrings
        (createCredentialBackend demoReq "cred-1" "e9" "2026-01-03" "10.0.0.1").1 ∧
    demoReq.value ∉ auditEntryStrings
        (createCredentialBackend demoReq "cred-1" "e9" "2026-01-03" "10.0.0.1").2 :=
  ⟨by decide,
   (C7_no_plaintext_delivered.2.2.2.2 demoReq "cred-1" "e9" "2026-01-03" "10.0.0.1"
      (by decide)).1,
   (C7_no_plaintext_delivered.2.2.2.2 demoReq "cred-1" "e9" "2026-01-03" "10.0.0.1"
      (by decide)).2⟩

/-- C8: the SSE parsing loop is chunk-boundary invariant: the complete lines
it processes are exactly the newline-split of the concatenated stream minus
its final (possibly unterminated) segment — so the parsed event sequence
depends only on the concatenation of the chunks, and a final `data:` line not
terminated by a newline is never parsed under any chunking. -/
theorem C8_chunk_boundary_invariant (pe : List Char → Option StreamEvent)
    (chunks : List (List Char)) :
    processedLines [] chunks = (splitNl chunks.flatten).dropLast ∧
    chunkParsedEvents pe chunks
      = ((splitNl chunks.flatten).dropLast).filterMap (lineEvent pe) ∧
    ∀ chunks' : List (List Char), chunks'.flatten = chunks.flatten →
      chunkParsedEvents pe chunks' = chunkParsedEvents pe chunks := by
  have hlines : ∀ cs : List (List Char),
      processedLines [] cs = (splitNl cs.flatten).dropLast := by
    intro cs
    rw [processedLines_eq cs [] (by simp), splitSeg_eq]
    rfl
  refine ⟨hlines chunks, by rw [chunkParsedEvents, hlines chunks], ?_⟩
  intro chunks' hflat
  rw [chunkParsedEvents, chunkParsedEvents, hlines chunks', hlines chunks, hflat]

/-- Witness for C8: the same byte stream delivered as one chunk or split
mid-way through the `data: ` prefix parses to the same single event. -/
theorem C8_chunk_boundary_invariant_witness :
    (["dat".toList, ("a: " ++ errJson ++ "\n").toList] : List (List Char)).flatten
      = ([sseLine errJson] : List (List Char)).flatten ∧
    chunkParsedEvents demoParse ["dat".toList, ("a: " ++ errJson ++ "\n").toList]
      = chunkParsedEvents demoParse [sseLine errJson] :=
  ⟨by decide,
   (C8_chunk_boundary_invariant demoParse [sseLine errJson]).2.2
     ["dat".toList, ("a: " ++ errJson ++ "\n").toList] (by decide)⟩

/-- C2 counterexample: a stream whose only parsed event is an `error` event;
the event is received and parsed, but the `events` state stays empty — a
received event is omitted from the delivered sequence. -/
theorem C2_error_event_omitted_counterexample :
    chunkParsedEvents demoParse [sseLine errJson] = [errEvent] ∧
    (executePost demoParseJson demoParse false
        (.resp true 200 "" true [sseLine errJson] none)).st.events = [] := by
  exact ⟨by decide, by decide⟩

/-- C2 (amended): over every execution of `executeStream` that consumes a
stream to its end, the `events` state is exactly the sequence of parsed
non-`error` events in arrival order — append-only, nothing reordered, and no
non-`error` event omitted; parsed `error` events are not appended to `events`
but instead set the error state to the last such event's message. -/
theorem C2_events_append_only (pj : String → JsonDetail)
    (pe : List Char → Option StreamEvent) (prev : Bool) (status : Nat)
    (eb : String) (chunks : List (List Char)) :
    (executePost pj pe prev (.resp true status eb true chunks none)).st.events
      = (chunkParsedEvents pe chunks).filter (fun e => !(e.type == EventType.error)) ∧
    (executePost pj pe prev (.resp true status eb true chunks none)).st.error
      = upd ((chunkParsedEvents pe chunks).filterMap errMsgOf).getLast? none := by
  have h := executeStream_ok_spec pj pe prev .post status eb chunks
  exact ⟨h.1, h.2.1⟩

/-- C1: when the event sequence parsed during an execution contains exactly
one terminal (`complete` or `error`) event — the backend emitter's guarantee —
the streaming client resolves it as specified: a `complete` event carrying an
agent snapshot in `data.agent` makes `executePost` return that snapshot and
set it as the result; an `error` event sets the error state to its message;
and a stream ending with no terminal event makes `executePost` return null. -/
theorem C1_terminal_event_dispatch (pj : String → JsonDetail)
    (pe : List Char → Option StreamEvent) (prev : Bool) (status : Nat)
    (eb : String) (chunks : List (List Char)) :
    (∀ (ev : StreamEvent) (a : Agent),
        (chunkParsedEvents pe chunks).filter isTerminal = [ev] →
        ev.type = EventType.complete → ev.dataAgent = some a →
        (executePost pj pe prev (.resp true status eb true chunks none)).ret = some a ∧
        (executePost pj pe prev (.resp true status eb true chunks none)).st.result
          = some a) ∧
    (∀ ev : StreamEvent,
        (chunkParsedEvents pe chunks).filter isTerminal = [ev] →
        ev.type = EventType.error →
        (executePost pj pe prev (.resp true status eb true chunks none)).st.error
          = some ev.message) ∧
    ((chunkParsedEvents pe chunks).filter isTerminal = [] →
        (executePost pj pe prev (.resp true status eb true chunks none)).ret = none) := by
  have h := executeStream_ok_spec pj pe prev .post status eb chunks
  have hagent : ∀ e : StreamEvent, isTerminal e = false → agentOf e = none := by
    intro e he
    simp [isTerminal] at he
    simp [agentOf, he.1]
  have herr : ∀ e : StreamEvent, isTerminal e = false → errMsgOf e = none := by
    intro e he
    simp [isTerminal] at he
    simp [errMsgOf, he.2]
  refine ⟨?_, ?_, ?_⟩
  · intro ev a hfil htype hda
    have hfm := filterMap_through_filter isTerminal agentOf hagent
      (chunkParsedEvents pe chunks)
    rw [hfil] at hfm
    have hone : (chunkParsedEvents pe chunks).filterMap agentOf = [a] := by
      rw [hfm]
      simp [List.filterMap_cons, agentOf, htype, hda]
    constructor
    · show (executeStream pj pe prev .post (.resp true status eb true chunks none)).ret
        = some a
      rw [h.2.2.2.1, hone]
      rfl
    · show (executeStream pj pe prev .post
          (.resp true status eb true chunks none)).st.result = some a
      rw [h.2.2.1, hone]
      rfl
  · intro ev hfil htype
    have hfm := filterMap_through_filter isTerminal errMsgOf herr
      (chunkParsedEvents pe chunks)
    rw [hfil] at hfm
    have hone : (chunkParsedEvents pe chunks).filterMap errMsgOf = [ev.message] := by
      rw [hfm]
      simp [List.filterMap_cons, errMsgOf, htype]
    show (executeStream pj pe prev .post
        (.resp true status eb true chunks none)).st.error = some ev.message
    rw [h.2.1, hone]
    rfl
  · intro hfil
    have hfm := filterMap_through_filter isTerminal agentOf hagent
      (chunkParsedEvents pe chunks)
    rw [hfil] at hfm
    simp only [List.filterMap_nil] at hfm
    show (executeStream pj pe prev .post (.resp true status eb true chunks none)).ret
      = none
    rw [h.2.2.2.1, hfm]
    rfl

/-- Witness for C1 at a concrete stream — one `log` event then one `complete`
event carrying `demoAgent` — whose terminal-event filter is the singleton
`complete` event: `executePost` returns the agent snapshot. -/
theorem C1_terminal_event_dispatch_witness :
    (chunkParsedEvents demoParse [sseLine logJson, sseLine completeJson]).filter isTerminal
      = [completeEvent] ∧
    completeEvent.type = EventType.complete ∧
    completeEvent.dataAgent = some demoAgent ∧
    (executePost demoParseJson demoParse false
        (.resp true 200 "" true [sseLine logJson, sseLine completeJson] none)).ret
      = some demoAgent :=
  ⟨by decide, by decide, by decide,
   ((C1_terminal_event_dispatch demoParseJson demoParse false 200 ""
       [sseLine logJson, sseLine completeJson]).1 completeEvent demoAgent
       (by decide) (by decide) (by decide)).1⟩

/-- C6 (amended): the caller always receives a terminal outcome — on every
execution of `executeStream` (non-ok response, missing body, parse failure,
thrown exception, abort, or normal completion) `isLoading` is false when the
call returns; on a non-ok HTTP response the result is null and the error state
is set to the response body's `detail` field when the body parses as JSON
carrying a non-empty string `detail`, and otherwise (parse failure, missing or
empty `detail`) to "Request failed: <status>". -/
theorem C6_terminal_outcome (pj : String → JsonDetail)
    (pe : List Char → Option StreamEvent) (prev : Bool) (method : HttpMethod) :
    (∀ fr : FetchResult, (executeStream pj pe prev method fr).st.isLoading = false) ∧
    (∀ (status : Nat) (eb : String) (hasBody : Bool) (chunks : List (List Char))
        (ta : Option (String × String)),
        (executeStream pj pe prev method
            (.resp false status eb hasBody chunks ta)).st.error
          = some (errorMessageFor status (pj eb)) ∧
        (executeStream pj pe prev method
            (.resp false status eb hasBody chunks ta)).ret = none) ∧
    (∀ (status : Nat) (d : String), d ≠ "" →
        errorMessageFor status (.parsed (some d)) = d) ∧
    (∀ status : Nat, errorMessageFor status .parseFail = requestFailedMsg status) ∧
    (∀ status : Nat, errorMessageFor status (.parsed none) = requestFailedMsg status) ∧
    (∀ status : Nat,
        errorMessageFor status (.parsed (some "")) = requestFailedMsg status) := by
  refine ⟨?_, ?_, ?_, fun _ => rfl, fun _ => rfl, fun _ => rfl⟩
  · intro fr
    cases fr with
    | thrown nm msg =>
      by_cases h : nm = "AbortError" <;> simp [executeStream, h]
    | resp ok status eb hasBody chunks ta =>
      cases ok
      · simp [executeStream]
      · cases hasBody
        · simp [executeStream]
        · rcases ta with _ | ⟨nm, msg⟩
          · simp [executeStream]
          · by_cases h : nm = "AbortError" <;> simp [executeStream, h]
  · intro status eb hasBody chunks ta
    exact ⟨rfl, rfl⟩
  · intro status d hd
    simp [errorMessageFor, hd]

/-- Witness for C6 at concrete inputs: a body with non-empty detail "oops"
yields "oops"; a thrown network error still ends with `isLoading = false`; and
a concrete non-ok response stores the computed error message. -/
theorem C6_terminal_outcome_witness :
    ("oops" : String) ≠ "" ∧
    errorMessageFor 404 (.parsed (some "oops")) = "oops" ∧
    (executeStream demoParseJson demoParse false .post
        (.thrown "TypeError" "net down")).st.isLoading = false ∧
    (executeStream demoParseJson demoParse false .post
        (.resp false 404 "bad" true [] none)).st.error
      = some (errorMessageFor 404 (demoParseJson "bad")) :=
  ⟨by decide,
   (C6_terminal_outcome demoParseJson demoParse false .post).2.2.1 404 "oops"
     (by decide),
   (C6_terminal_outcome demoParseJson demoParse false .post).1 _,
   ((C6_terminal_outcome demoParseJson demoParse false .post).2.1 404 "bad" true
     [] none).1⟩

/-- C6 counterexample: a 500 response whose body is the JSON object with an
empty-string `detail` field: the body parses as JSON, yet the error state is
set to the fallback "Request failed: 500", not to the `detail` field. -/
theorem C6_detail_counterexample :
    demoParseJson emptyDetailBody = JsonDetail.parsed (some "") ∧
    (executePost demoParseJson demoParse false
        (.resp false 500 emptyDetailBody true [] none)).st.error
      = some "Request failed: 500" ∧
    ("Request failed: 500" : String) ≠ "" :=
  ⟨by decide, by decide, by decide⟩

/-- C9: the code evaluated at the failing input: the awaited delete stream
emitted an `error` event — the hook's final error state is "boom" — yet
`executeDelete` returns `true`, because line 182 tests the `error` and
`isLoading` values captured by the callback's closure at its creation render
(here `null` / `false`), not the state the just-awaited stream produced; this
contradicts the adjacent comment "For delete operations, success is indicated
by no error". -/
theorem C9_stale_closure_returns_true :
    (executeDelete none false demoParseJson demoParse false
        (.resp true 200 "" true [sseLine errJson] none)).2 = true ∧
    (executeDelete none false demoParseJson demoParse false
        (.resp true 200 "" true [sseLine errJson] none)).1.st.error
      = some "boom" :=
  ⟨by decide, by decide⟩

/-- C10: client-side single-flight per hook instance: whenever a previous
request is still in flight (the abort-controller ref is non-null), a new
`executeStream` call aborts it; and an execution that is itself terminated by
such an abort — whether the `AbortError` surfaces from `fetch` or mid-stream —
returns null, and its termination path leaves the error state unset. -/
theorem C10_single_flight_abort (pj : String → JsonDetail)
    (pe : List Char → Option StreamEvent) (method : HttpMethod) :
    (∀ fr : FetchResult, (executeStream pj pe true method fr).abortedPrev = true) ∧
    (∀ (prev : Bool) (msg : String),
        (executeStream pj pe prev method (.thrown "AbortError" msg)).ret = none ∧
        (executeStream pj pe prev method (.thrown "AbortError" msg)).st.error
          = none) ∧
    (∀ (prev : Bool) (status : Nat) (eb msg : String) (chunks : List (List Char)),
        (chunkParsedEvents pe chunks).filterMap errMsgOf = [] →
        (executeStream pj pe prev method
            (.resp true status eb true chunks (some ("AbortError", msg)))).ret
          = none ∧
        (executeStream pj pe prev method
            (.resp true status eb true chunks (some ("AbortError", msg)))).st.error
          = none) := by
  refine ⟨?_, ?_, ?_⟩
  · intro fr
    cases fr with
    | thrown nm msg =>
      by_cases h : nm = "AbortError" <;> simp [executeStream, h]
    | resp ok status eb hasBody chunks ta =>
      cases ok
      · simp [executeStream]
      · cases hasBody
        · simp [executeStream]
        · rcases ta with _ | ⟨nm, msg⟩
          · simp [executeStream]
          · by_cases h : nm = "AbortError" <;> simp [executeStream, h]
  · intro prev msg
    exact ⟨rfl, rfl⟩
  · intro prev status eb msg chunks h
    have hspec := executeStream_abort_mid_spec pj pe prev method status eb msg chunks
    refine ⟨hspec.1, ?_⟩
    rw [hspec.2.1, h]
    rfl

/-- Witness for C10 at a concrete execution: one `log` event arrives, then the
stream is aborted; the previous controller is aborted, the call returns null,
and the error state is unset. -/
theorem C10_single_flight_abort_witness :
    (chunkParsedEvents demoParse [sseLine logJson]).filterMap errMsgOf = [] ∧
    (executeStream demoParseJson demoParse true .post
        (.resp true 200 "" true [sseLine logJson]
          (some ("AbortError", "aborted")))).abortedPrev = true ∧
    (executeStream demoParseJson demoParse true .post
        (.resp true 200 "" true [sseLine logJson]
          (some ("AbortError", "aborted")))).ret = none ∧
    (executeStream demoParseJson demoParse true .post
        (.resp true 200 "" true [sseLine logJson]
          (some ("AbortError", "aborted")))).st.error = none :=
  ⟨by decide,
   (C10_single_flight_abort demoParseJson demoParse .post).1 _,
   ((C10_single_flight_abort demoParseJson demoParse .post).2.2 true 200 ""
     "aborted" [sseLine logJson] (by decide)).1,
   ((C10_single_flight_abort demoParseJson demoParse .post).2.2 true 200 ""
     "aborted" [sseLine logJson] (by decide)).2⟩

end ZergRush
